import Mathlib

/-!
Shallow embedding of the spectrogram `Workbench` React component
(`src/AudioAnnotator/Workbench` in the repository).  Pixel coordinates,
times and frequencies are modelled as exact rationals; the component's
mutable instance fields and React state are modelled as explicit record
states threaded through the event handlers.  The `Annotation` record of
the source is named `Annot` here, its `annotation` field `annot`, and
the drag handlers `onStartNewAnnotation` / `computeNewAnnotation` /
`onUpdateNewAnnotation` / `onEndNewAnnotation` are `onStartNewAnnot` /
`computeNewAnnot` / `onUpdateNewAnnot` / `onEndNewAnnot`; `timePxRatio`
and `freqPxRatio` are `timePxR` and `freqPxR`.  URL-string construction
in `buildSpectrogramsDetails` (prefix/name/extension parsing and the
file-name formatting of tile boundaries) is not modelled: no claim
concerns it, only the zoom factors and the tile time ranges.
-/

/-- Geometry of the drawing canvas.  `left`/`top` come from
`getBoundingClientRect()`; the canvas element carries its intrinsic
`width`/`height` attributes and no CSS resizing, so the bounding
rectangle's `right` is `left + width` and its `bottom` is
`top + height` (the source reads `canvas.width` / `canvas.height` for
the clamped offsets and `bounds.left` / `bounds.right` / `bounds.top` /
`bounds.bottom` for the comparisons). -/
structure SurfaceGeom where
  left : ℚ
  top : ℚ
  width : ℚ
  height : ℚ
deriving DecidableEq

/-- Right edge of the canvas bounding rectangle. -/
def SurfaceGeom.right (g : SurfaceGeom) : ℚ := g.left + g.width

/-- Bottom edge of the canvas bounding rectangle. -/
def SurfaceGeom.bottom (g : SurfaceGeom) : ℚ := g.top + g.height

/-- Embedding of `getTimeFromClientX`: the horizontal pixel offset from
the canvas's left edge, clamped to `0` left of the canvas and to
`canvas.width` right of it, divided by `timePxRatio`. -/
def getTimeFromClientX (g : SurfaceGeom) (timePxR : ℚ) (clientX : ℚ) : ℚ :=
  let offset : ℚ :=
    if clientX < g.left then 0
    else if clientX > SurfaceGeom.right g then g.width
    else clientX - g.left
  offset / timePxR

/-- Embedding of `getFrequencyFromClientY`: the vertical pixel offset
from the canvas's bottom edge, clamped to `canvas.height` above the
canvas and to `0` below it, divided by `freqPxRatio`, plus the
`startFrequency` prop. -/
def getFrequencyFromClientY (g : SurfaceGeom) (freqPxR : ℚ) (startFrequency : ℚ)
    (clientY : ℚ) : ℚ :=
  let offset : ℚ :=
    if clientY < g.top then g.height
    else if clientY > SurfaceGeom.bottom g then 0
    else SurfaceGeom.bottom g - clientY
  startFrequency + offset / freqPxR

/-- C4: for a surface of nonnegative width, `getTimeFromClientX`
returns `0` for every `clientX` left of the surface's left bound,
`surfaceWidthPx / timePxRatio` for every `clientX` right of the
surface's right bound, and `(clientX − surfaceLeft) / timePxRatio` for
every interior `clientX`. -/
theorem C4_time_from_clientX (g : SurfaceGeom) (r clientX : ℚ) (hw : 0 ≤ g.width) :
    (clientX < g.left → getTimeFromClientX g r clientX = 0) ∧
    (SurfaceGeom.right g < clientX → getTimeFromClientX g r clientX = g.width / r) ∧
    (g.left ≤ clientX → clientX ≤ SurfaceGeom.right g →
      getTimeFromClientX g r clientX = (clientX - g.left) / r) := by
  refine ⟨fun h => ?_, fun h => ?_, fun h1 h2 => ?_⟩
  · simp [getTimeFromClientX, h]
  · have hgl : g.left ≤ SurfaceGeom.right g := le_add_of_nonneg_right hw
    have h1 : ¬ clientX < g.left := not_lt.mpr (hgl.trans h.le)
    simp [getTimeFromClientX, h1, h]
  · simp [getTimeFromClientX, not_lt.mpr h1, not_lt.mpr h2]

/-- Witness for C4 at a concrete surface `left = 100`, `width = 200`,
ratio `2`: a point left of the surface maps to time `0`, a point right
of it to `width / ratio`, and an interior point to its offset over the
ratio. -/
theorem C4_witness :
    getTimeFromClientX ⟨100, 0, 200, 50⟩ 2 40 = 0 ∧
    getTimeFromClientX ⟨100, 0, 200, 50⟩ 2 400 = 200 / 2 ∧
    getTimeFromClientX ⟨100, 0, 200, 50⟩ 2 150 = (150 - 100) / 2 := by
  refine ⟨(C4_time_from_clientX ⟨100, 0, 200, 50⟩ 2 40 (by norm_num)).1 (by norm_num),
    (C4_time_from_clientX ⟨100, 0, 200, 50⟩ 2 400 (by norm_num)).2.1
      (by norm_num [SurfaceGeom.right]),
    (C4_time_from_clientX ⟨100, 0, 200, 50⟩ 2 150 (by norm_num)).2.2 (by norm_num)
      (by norm_num [SurfaceGeom.right])⟩

/-- C5: for a surface of nonnegative height, `getFrequencyFromClientY`
returns `startFrequency + surfaceHeightPx / freqPxRatio` for every
`clientY` at or above the top of the surface, `startFrequency` for
every `clientY` at or below the bottom, and
`startFrequency + (surfaceBottom − clientY) / freqPxRatio` for every
interior `clientY`, so frequency increases upward. -/
theorem C5_frequency_from_clientY (g : SurfaceGeom) (r sf clientY : ℚ)
    (hh : 0 ≤ g.height) :
    (clientY ≤ g.top →
      getFrequencyFromClientY g r sf clientY = sf + g.height / r) ∧
    (SurfaceGeom.bottom g ≤ clientY →
      getFrequencyFromClientY g r sf clientY = sf) ∧
    (g.top ≤ clientY → clientY ≤ SurfaceGeom.bottom g →
      getFrequencyFromClientY g r sf clientY
        = sf + (SurfaceGeom.bottom g - clientY) / r) := by
  have htb : g.top ≤ SurfaceGeom.bottom g := le_add_of_nonneg_right hh
  refine ⟨fun h => ?_, fun h => ?_, fun h1 h2 => ?_⟩
  · rcases lt_or_eq_of_le h with h' | h'
    · simp [getFrequencyFromClientY, h']
    · subst h'
      simp [getFrequencyFromClientY, SurfaceGeom.bottom, not_lt.mpr hh]
  · have hnt : ¬ clientY < g.top := not_lt.mpr (htb.trans h)
    rcases lt_or_eq_of_le h with h' | h'
    · simp [getFrequencyFromClientY, hnt, h']
    · subst h'
      simp [getFrequencyFromClientY, hnt]
  · simp [getFrequencyFromClientY, not_lt.mpr h1, not_lt.mpr h2]

/-- Witness for C5 at a concrete surface `top = 20`, `height = 100`,
ratio `4`, `startFrequency = 300`: a point above the top maps to
`startFrequency + height / ratio`, a point below the bottom to
`startFrequency`, and an interior point to
`startFrequency + (bottom − clientY) / ratio`. -/
theorem C5_witness :
    getFrequencyFromClientY ⟨0, 20, 50, 100⟩ 4 300 5 = 300 + 100 / 4 ∧
    getFrequencyFromClientY ⟨0, 20, 50, 100⟩ 4 300 200 = 300 ∧
    getFrequencyFromClientY ⟨0, 20, 50, 100⟩ 4 300 60
      = 300 + (SurfaceGeom.bottom ⟨0, 20, 50, 100⟩ - 60) / 4 := by
  refine ⟨(C5_frequency_from_clientY ⟨0, 20, 50, 100⟩ 4 300 5 (by norm_num)).1
      (by norm_num),
    (C5_frequency_from_clientY ⟨0, 20, 50, 100⟩ 4 300 200 (by norm_num)).2.1
      (by norm_num [SurfaceGeom.bottom]),
    (C5_frequency_from_clientY ⟨0, 20, 50, 100⟩ 4 300 60 (by norm_num)).2.2
      (by norm_num) (by norm_num [SurfaceGeom.bottom])⟩

/-- Embedding of the `Annotation` record of `AudioAnnotator.js` (named
`Annot` here; the source's `annotation` field is `annot`). -/
structure Annot where
  id : String
  annot : String
  startTime : ℚ
  endTime : ℚ
  startFrequency : ℚ
  endFrequency : ℚ
  active : Bool
deriving DecidableEq

/-- A pointer event, reduced to the client coordinates the handlers
read. -/
structure PointerEvt where
  clientX : ℚ
  clientY : ℚ
deriving DecidableEq

/-- The environment the drag handlers read but never write: canvas
geometry, the two pixel ratios and the `startFrequency` prop. -/
structure Env where
  geom : SurfaceGeom
  timePxR : ℚ
  freqPxR : ℚ
  startFrequency : ℚ
deriving DecidableEq

/-- The component state touched by the drag handlers: the instance
fields `isDrawing`, `drawPxMove`, `drawStartTime`,
`drawStartFrequency`, the React state field `newAnnotation` (here
`newAnnot`), and `created`, the log of `onAnnotationCreated` callback
invocations. -/
structure DrawState where
  isDrawing : Bool
  drawPxMove : ℕ
  drawStartTime : ℚ
  drawStartFrequency : ℚ
  newAnnot : Option Annot
  created : List Annot
deriving DecidableEq

/-- Embedding of `onStartNewAnnotation` (pointer-down on the canvas):
records the drag origin through the coordinate transforms, sets the
drawing flag, resets the movement counter and installs a zero-width
draft at the down point. -/
def onStartNewAnnot (env : Env) (e : PointerEvt) (s : DrawState) : DrawState :=
  let newTime := getTimeFromClientX env.geom env.timePxR e.clientX
  let newFrequency := getFrequencyFromClientY env.geom env.freqPxR env.startFrequency e.clientY
  { s with
    isDrawing := true
    drawPxMove := 0
    drawStartTime := newTime
    drawStartFrequency := newFrequency
    newAnnot := some
      { id := ""
        annot := ""
        startTime := newTime
        endTime := newTime
        startFrequency := newFrequency
        endFrequency := newFrequency
        active := false } }

/-- Embedding of `computeNewAnnotation`: the min/max-normalized
rectangle between the recorded drag origin and the current pointer
position. -/
def computeNewAnnot (env : Env) (e : PointerEvt) (s : DrawState) : Annot :=
  let currentTime := getTimeFromClientX env.geom env.timePxR e.clientX
  let currentFrequency := getFrequencyFromClientY env.geom env.freqPxR env.startFrequency e.clientY
  { id := ""
    annot := ""
    startTime := min currentTime s.drawStartTime
    endTime := max currentTime s.drawStartTime
    startFrequency := min currentFrequency s.drawStartFrequency
    endFrequency := max currentFrequency s.drawStartFrequency
    active := false }

/-- Embedding of `onUpdateNewAnnotation` (document-level pointer-move):
when a drag is active, increments the movement counter
(`++this.drawPxMove`), and once the incremented counter exceeds `2`
replaces the draft with the recomputed normalized rectangle. -/
def onUpdateNewAnnot (env : Env) (e : PointerEvt) (s : DrawState) : DrawState :=
  if s.isDrawing then
    let s1 := { s with drawPxMove := s.drawPxMove + 1 }
    if 2 < s1.drawPxMove then
      { s1 with newAnnot := some (computeNewAnnot env e s1) }
    else s1
  else s

/-- Embedding of `onEndNewAnnotation` (document-level pointer-up): when
a drag is active and the movement counter exceeds `2`, invokes
`onAnnotationCreated` with the recomputed normalized rectangle (logged
in `created`) and clears the draft; in every case it then resets the
drawing flag and the movement counter. -/
def onEndNewAnnot (env : Env) (e : PointerEvt) (s : DrawState) : DrawState :=
  let s1 :=
    if s.isDrawing ∧ 2 < s.drawPxMove then
      { s with
        created := s.created ++ [computeNewAnnot env e s]
        newAnnot := none }
    else s
  { s1 with isDrawing := false, drawPxMove := 0 }

/-- Folds a list of pointer-move events through
`onUpdateNewAnnotation`. -/
def applyMoves (env : Env) (moves : List PointerEvt) (s : DrawState) : DrawState :=
  moves.foldl (fun st e => onUpdateNewAnnot env e st) s

/-- A full gesture: pointer-down, a list of pointer-moves, pointer-up. -/
def runGesture (env : Env) (down : PointerEvt) (moves : List PointerEvt)
    (up : PointerEvt) (s : DrawState) : DrawState :=
  onEndNewAnnot env up (applyMoves env moves (onStartNewAnnot env down s))

/-- Field effects of one `onUpdateNewAnnotation` call: the drawing
flag, the drag origin and the `onAnnotationCreated` log are never
touched, and the movement counter is incremented exactly when a drag is
active. -/
theorem onUpdateNewAnnot_fields (env : Env) (e : PointerEvt) (s : DrawState) :
    (onUpdateNewAnnot env e s).isDrawing = s.isDrawing ∧
    (onUpdateNewAnnot env e s).drawStartTime = s.drawStartTime ∧
    (onUpdateNewAnnot env e s).drawStartFrequency = s.drawStartFrequency ∧
    (onUpdateNewAnnot env e s).created = s.created ∧
    (onUpdateNewAnnot env e s).drawPxMove
      = (if s.isDrawing = true then s.drawPxMove + 1 else s.drawPxMove) := by
  by_cases hb : s.isDrawing = true
  · by_cases hc : 2 < s.drawPxMove + 1 <;> simp [onUpdateNewAnnot, hb, hc]
  · simp [onUpdateNewAnnot, hb]

/-- A run of pointer-moves never touches the drawing flag, the drag
origin or the `onAnnotationCreated` log, and while a drag is active it
adds the number of moves to the movement counter. -/
theorem applyMoves_invariants (env : Env) (moves : List PointerEvt) : ∀ s : DrawState,
    (applyMoves env moves s).isDrawing = s.isDrawing ∧
    (applyMoves env moves s).drawStartTime = s.drawStartTime ∧
    (applyMoves env moves s).drawStartFrequency = s.drawStartFrequency ∧
    (applyMoves env moves s).created = s.created ∧
    (s.isDrawing = true →
      (applyMoves env moves s).drawPxMove = s.drawPxMove + moves.length) := by
  induction moves with
  | nil => intro s; simp [applyMoves]
  | cons e rest ih =>
    intro s
    have hfields := onUpdateNewAnnot_fields env e s
    have hrec := ih (onUpdateNewAnnot env e s)
    have hfold : applyMoves env (e :: rest) s
        = applyMoves env rest (onUpdateNewAnnot env e s) := rfl
    rw [hfold]
    refine ⟨hrec.1.trans hfields.1, hrec.2.1.trans hfields.2.1,
      hrec.2.2.1.trans hfields.2.2.1, hrec.2.2.2.1.trans hfields.2.2.2.1, ?_⟩
    intro hs
    have hs' : (onUpdateNewAnnot env e s).isDrawing = true := hfields.1.trans hs
    have h1 := hrec.2.2.2.2 hs'
    have h2 := hfields.2.2.2.2
    rw [if_pos hs] at h2
    rw [h1, h2, List.length_cons]
    omega

/-- While the movement counter stays at or below the threshold, one
pointer-move leaves the draft unchanged and increments the counter by
at most one. -/
theorem onUpdateNewAnnot_newAnnot_below (env : Env) (e : PointerEvt) (s : DrawState)
    (h : s.drawPxMove + 1 ≤ 2) :
    (onUpdateNewAnnot env e s).newAnnot = s.newAnnot ∧
    (onUpdateNewAnnot env e s).drawPxMove ≤ s.drawPxMove + 1 := by
  have hc : ¬ 2 < s.drawPxMove + 1 := by omega
  by_cases hb : s.isDrawing = true
  · simp [onUpdateNewAnnot, hb, hc]
  · simp [onUpdateNewAnnot, hb]

/-- While the movement counter stays at or below the threshold, a run
of pointer-moves never touches the draft. -/
theorem applyMoves_newAnnot_below_threshold (env : Env) (moves : List PointerEvt) :
    ∀ s : DrawState, s.drawPxMove + moves.length ≤ 2 →
      (applyMoves env moves s).newAnnot = s.newAnnot := by
  induction moves with
  | nil => intro s _; simp [applyMoves]
  | cons e rest ih =>
    intro s hm
    rw [List.length_cons] at hm
    have hstep := onUpdateNewAnnot_newAnnot_below env e s (by omega)
    have hfold : applyMoves env (e :: rest) s
        = applyMoves env rest (onUpdateNewAnnot env e s) := rfl
    rw [hfold]
    have := ih (onUpdateNewAnnot env e s) (by omega)
    exact this.trans hstep.1

/-- Unfolding of `onEndNewAnnotation`'s log when a drag is active: the
`onAnnotationCreated` callback fires exactly when the movement counter
exceeds `2`. -/
theorem onEndNewAnnot_created (env : Env) (up : PointerEvt) (t : DrawState)
    (ht : t.isDrawing = true) :
    (onEndNewAnnot env up t).created
      = if 2 < t.drawPxMove then t.created ++ [computeNewAnnot env up t]
        else t.created := by
  by_cases h2 : 2 < t.drawPxMove
  · simp [onEndNewAnnot, ht, h2]
  · simp [onEndNewAnnot, ht, h2]

/-- Unfolding of `onEndNewAnnotation` below the threshold: the whole
call only resets the drawing flag and the movement counter. -/
theorem onEndNewAnnot_below (env : Env) (up : PointerEvt) (t : DrawState)
    (h2 : ¬ 2 < t.drawPxMove) :
    onEndNewAnnot env up t = { t with isDrawing := false, drawPxMove := 0 } := by
  simp [onEndNewAnnot, h2]

/-- C1 (counterexample): a gesture with exactly `3` pointer-move events
— which the claim classifies as a plain click producing no annotation —
does invoke `onAnnotationCreated` once. -/
theorem C1_counterexample :
    ([(⟨20, 80⟩ : PointerEvt), ⟨20, 80⟩, ⟨20, 80⟩]).length ≤ 3 ∧
    ((runGesture ⟨⟨0, 0, 100, 100⟩, 1, 1, 0⟩ ⟨10, 90⟩
        [⟨20, 80⟩, ⟨20, 80⟩, ⟨20, 80⟩] ⟨30, 70⟩
        ⟨false, 0, 0, 0, none, []⟩).created).length = 1 := by
  constructor
  · decide
  · rfl

/-- C1 (amended): for every gesture of pointer-down, `m` pointer-move
events and pointer-up, no `onAnnotationCreated` call is made before
pointer-up; at pointer-up, no call is made when `m ≤ 2` and exactly one
call is made when `m > 2`. -/
theorem C1_gesture_creation_threshold (env : Env) (down up : PointerEvt)
    (moves : List PointerEvt) (s : DrawState) :
    (applyMoves env moves (onStartNewAnnot env down s)).created = s.created ∧
    ((runGesture env down moves up s).created).length
      = s.created.length + (if 2 < moves.length then 1 else 0) := by
  have hstart : (onStartNewAnnot env down s).isDrawing = true := rfl
  have hstart2 : (onStartNewAnnot env down s).drawPxMove = 0 := rfl
  have hstart3 : (onStartNewAnnot env down s).created = s.created := rfl
  have hinv := applyMoves_invariants env moves (onStartNewAnnot env down s)
  have hA : (applyMoves env moves (onStartNewAnnot env down s)).created = s.created :=
    (hinv.2.2.2.1).trans hstart3
  have hdraw : (applyMoves env moves (onStartNewAnnot env down s)).isDrawing = true :=
    hinv.1.trans hstart
  have hpx : (applyMoves env moves (onStartNewAnnot env down s)).drawPxMove
      = moves.length := by
    have h := hinv.2.2.2.2 hstart
    rw [h, hstart2, Nat.zero_add]
  refine ⟨hA, ?_⟩
  simp only [runGesture]
  rw [onEndNewAnnot_created env up _ hdraw, hpx, hA]
  by_cases h2 : 2 < moves.length
  · simp [h2]
  · simp [h2]

/-- C3: the annotation computed by `computeNewAnnotation` — the draft
installed on every move past the threshold and the annotation emitted
at drag-end — is the min/max normalization of the drag origin and the
current transformed pointer position, hence `startTime ≤ endTime` and
`startFrequency ≤ endFrequency` regardless of drag direction. -/
theorem C3_normalized_draft (env : Env) (e : PointerEvt) (s : DrawState) :
    (computeNewAnnot env e s).startTime
      = min (getTimeFromClientX env.geom env.timePxR e.clientX) s.drawStartTime ∧
    (computeNewAnnot env e s).endTime
      = max (getTimeFromClientX env.geom env.timePxR e.clientX) s.drawStartTime ∧
    (computeNewAnnot env e s).startFrequency
      = min (getFrequencyFromClientY env.geom env.freqPxR env.startFrequency e.clientY)
          s.drawStartFrequency ∧
    (computeNewAnnot env e s).endFrequency
      = max (getFrequencyFromClientY env.geom env.freqPxR env.startFrequency e.clientY)
          s.drawStartFrequency ∧
    (computeNewAnnot env e s).startTime ≤ (computeNewAnnot env e s).endTime ∧
    (computeNewAnnot env e s).startFrequency ≤ (computeNewAnnot env e s).endFrequency ∧
    (s.isDrawing = true → 2 ≤ s.drawPxMove →
      (onUpdateNewAnnot env e s).newAnnot = some (computeNewAnnot env e s)) ∧
    (s.isDrawing = true → 2 < s.drawPxMove →
      (onEndNewAnnot env e s).created = s.created ++ [computeNewAnnot env e s]) := by
  refine ⟨rfl, rfl, rfl, rfl, min_le_max, min_le_max, ?_, ?_⟩
  · intro hs h2
    have hc : 2 < s.drawPxMove + 1 := Nat.lt_succ_of_le h2
    simp [onUpdateNewAnnot, hs, hc]
    rfl
  · intro hs h3
    rw [onEndNewAnnot_created env e s hs, if_pos h3]

/-- Witness for C3: a concrete drag ending at time `30`, frequency
`30`, with origin time `5`, frequency `50`, emits the normalized
rectangle `[5, 30] × [30, 50]`. -/
theorem C3_witness :
    (onEndNewAnnot ⟨⟨0, 0, 100, 100⟩, 1, 1, 0⟩ ⟨30, 70⟩
        ⟨true, 3, 5, 50, none, []⟩).created
      = [] ++ [computeNewAnnot ⟨⟨0, 0, 100, 100⟩, 1, 1, 0⟩ ⟨30, 70⟩
          ⟨true, 3, 5, 50, none, []⟩] :=
  (C3_normalized_draft ⟨⟨0, 0, 100, 100⟩, 1, 1, 0⟩ ⟨30, 70⟩
    ⟨true, 3, 5, 50, none, []⟩).2.2.2.2.2.2.2 rfl (by decide)

/-- C10: a gesture whose movement counter stays at or below the
threshold resets only the drawing flag and the movement counter; the
`newAnnotation` state field is not cleared and still holds the
zero-width draft created at pointer-down, and no annotation is
created. -/
theorem C10_draft_not_cleared (env : Env) (down up : PointerEvt)
    (moves : List PointerEvt) (s : DrawState) (hm : moves.length ≤ 2) :
    (runGesture env down moves up s).isDrawing = false ∧
    (runGesture env down moves up s).drawPxMove = 0 ∧
    (runGesture env down moves up s).created = s.created ∧
    (runGesture env down moves up s).newAnnot
      = some { id := ""
               annot := ""
               startTime := getTimeFromClientX env.geom env.timePxR down.clientX
               endTime := getTimeFromClientX env.geom env.timePxR down.clientX
               startFrequency := getFrequencyFromClientY env.geom env.freqPxR
                 env.startFrequency down.clientY
               endFrequency := getFrequencyFromClientY env.geom env.freqPxR
                 env.startFrequency down.clientY
               active := false } := by
  have hstart : (onStartNewAnnot env down s).isDrawing = true := rfl
  have hstart2 : (onStartNewAnnot env down s).drawPxMove = 0 := rfl
  have hinv := applyMoves_invariants env moves (onStartNewAnnot env down s)
  have hpx : (applyMoves env moves (onStartNewAnnot env down s)).drawPxMove
      = moves.length := by
    have h := hinv.2.2.2.2 hstart
    rw [h, hstart2, Nat.zero_add]
  have hno : (applyMoves env moves (onStartNewAnnot env down s)).newAnnot
      = (onStartNewAnnot env down s).newAnnot :=
    applyMoves_newAnnot_below_threshold env moves (onStartNewAnnot env down s)
      (by rw [hstart2, Nat.zero_add]; exact hm)
  have h2 : ¬ 2 < (applyMoves env moves (onStartNewAnnot env down s)).drawPxMove := by
    rw [hpx]; omega
  have hend := onEndNewAnnot_below env up _ h2
  simp only [runGesture, hend]
  exact ⟨by simp, by simp, hinv.2.2.2.1.trans rfl, hno.trans rfl⟩

/-- Witness for C10: a concrete down/one-move/up gesture leaves the
zero-width draft at time `10`, frequency `10` in place while resetting
the drawing flag. -/
theorem C10_witness :
    (runGesture ⟨⟨0, 0, 100, 100⟩, 1, 1, 0⟩ ⟨10, 90⟩ [⟨20, 80⟩] ⟨30, 70⟩
        ⟨false, 0, 0, 0, none, []⟩).isDrawing = false ∧
    (runGesture ⟨⟨0, 0, 100, 100⟩, 1, 1, 0⟩ ⟨10, 90⟩ [⟨20, 80⟩] ⟨30, 70⟩
        ⟨false, 0, 0, 0, none, []⟩).drawPxMove = 0 ∧
    (runGesture ⟨⟨0, 0, 100, 100⟩, 1, 1, 0⟩ ⟨10, 90⟩ [⟨20, 80⟩] ⟨30, 70⟩
        ⟨false, 0, 0, 0, none, []⟩).created = [] ∧
    (runGesture ⟨⟨0, 0, 100, 100⟩, 1, 1, 0⟩ ⟨10, 90⟩ [⟨20, 80⟩] ⟨30, 70⟩
        ⟨false, 0, 0, 0, none, []⟩).newAnnot
      = some { id := ""
               annot := ""
               startTime := getTimeFromClientX ⟨0, 0, 100, 100⟩ 1 10
               endTime := getTimeFromClientX ⟨0, 0, 100, 100⟩ 1 10
               startFrequency := getFrequencyFromClientY ⟨0, 0, 100, 100⟩ 1 0 90
               endFrequency := getFrequencyFromClientY ⟨0, 0, 100, 100⟩ 1 0 90
               active := false } :=
  C10_draft_not_cleared ⟨⟨0, 0, 100, 100⟩, 1, 1, 0⟩ ⟨10, 90⟩ ⟨30, 70⟩ [⟨20, 80⟩]
    ⟨false, 0, 0, 0, none, []⟩ (by decide)

/-- The component state touched by the zoom controller: the React state
fields `currentZoom`, `wrapperWidth`, `timePxRatio`, `freqPxRatio`
(here `timePxR` / `freqPxR`) and the canvas / time-axis element widths
and the canvas height that `zoom` writes through the refs. -/
structure ZoomState where
  currentZoom : ℕ
  wrapperWidth : ℚ
  canvasWidth : ℚ
  timeAxisWidth : ℚ
  canvasHeight : ℚ
  timePxR : ℚ
  freqPxR : ℚ
deriving DecidableEq

/-- JS `Array.prototype.findIndex` with the predicate
`factor === currentZoom`: the first index whose element equals `x`,
`-1` when absent. -/
def jsFindIndex (l : List ℕ) (x : ℕ) : ℤ :=
  match l.findIdx? (fun z => z == x) with
  | some i => (i : ℤ)
  | none => -1

/-- Embedding of `zoom`: looks up the index of `currentZoom` in the
sorted zoom-level list of the current resolution, steps one level up
when `direction > 0` and the index is below the hard cap `4`, one
level down when `direction < 0` and the index is above `0`, then
resizes the canvas and time-axis widths to `wrapperWidth × newZoom`
and recomputes `timePxRatio = wrapperWidth × newZoom / duration`.
The JS element accesses `zoomLevels[oldZoomIdx ± 1]` are made total
with `getD`; under the guards the accessed index is the JS one
(including `zoomLevels[0]` when `findIndex` returned `-1`). -/
def zoom (duration : ℚ) (zoomLevels : List ℕ) (s : ZoomState) (direction : ℤ) : ZoomState :=
  let oldZoomIdx : ℤ := jsFindIndex zoomLevels s.currentZoom
  let newZoom : ℕ :=
    if 0 < direction ∧ oldZoomIdx < 4 then
      zoomLevels.getD (oldZoomIdx + 1).toNat 0
    else if direction < 0 ∧ 0 < oldZoomIdx then
      zoomLevels.getD (oldZoomIdx - 1).toNat 0
    else s.currentZoom
  { s with
    canvasWidth := s.wrapperWidth * (newZoom : ℚ)
    timeAxisWidth := s.wrapperWidth * (newZoom : ℚ)
    currentZoom := newZoom
    timePxR := s.wrapperWidth * (newZoom : ℚ) / duration }

/-- Embedding of `onWheelZoom`: calls `preventDefault()` first (the
`Bool` component of the result, always `true`), then performs a single
`zoom(+1)` on a negative vertical delta and a single `zoom(-1)` on a
positive one, ignoring the delta magnitude. -/
def onWheelZoom (duration : ℚ) (zoomLevels : List ℕ) (deltaY : ℚ) (s : ZoomState) :
    ZoomState × Bool :=
  if deltaY < 0 then (zoom duration zoomLevels s 1, true)
  else if deltaY > 0 then (zoom duration zoomLevels s (-1), true)
  else (s, true)

/-- C2 (counterexample): at the lowest level of the two-level list
`[1, 2]`, a wheel event with negative `deltaY` raises the zoom factor
from `1` to `2` — a zoom-in, not the zoom-out the claim states — and
with positive `deltaY` from level `2` the factor drops to `1` — a
zoom-out, not a zoom-in. -/
theorem C2_counterexample :
    ((onWheelZoom 100 [1, 2] (-1) ⟨1, 50, 50, 50, 30, 1, 1⟩).1).currentZoom = 2 ∧
    ((onWheelZoom 100 [1, 2] 1 ⟨2, 50, 100, 100, 30, 1, 1⟩).1).currentZoom = 1 := by
  constructor <;> rfl

/-- C2 (amended): for every wheel event, a negative vertical delta
performs exactly one `zoom(+1)` (zoom-in) and a positive vertical delta
exactly one `zoom(-1)` (zoom-out), with the delta magnitude ignored and
the default scroll behavior suppressed. -/
theorem C2_wheel_zoom (duration : ℚ) (zoomLevels : List ℕ) (deltaY : ℚ) (s : ZoomState) :
    (deltaY < 0 →
      onWheelZoom duration zoomLevels deltaY s = (zoom duration zoomLevels s 1, true)) ∧
    (0 < deltaY →
      onWheelZoom duration zoomLevels deltaY s = (zoom duration zoomLevels s (-1), true)) ∧
    (onWheelZoom duration zoomLevels deltaY s).2 = true := by
  refine ⟨fun h => ?_, fun h => ?_, ?_⟩
  · simp [onWheelZoom, h]
  · have h0 : ¬ deltaY < 0 := not_lt.mpr h.le
    simp [onWheelZoom, h0, h]
  · by_cases h1 : deltaY < 0
    · simp [onWheelZoom, h1]
    · by_cases h2 : deltaY > 0 <;> simp [onWheelZoom, h1, h2]

/-- Witness for C2 at a concrete wheel event of delta `-5`: the handler
performs `zoom(+1)` and suppresses the default behavior. -/
theorem C2_witness :
    onWheelZoom 100 [1, 2] (-5) ⟨1, 50, 50, 50, 30, 1, 1⟩
      = (zoom 100 [1, 2] ⟨1, 50, 50, 50, 30, 1, 1⟩ 1, true) :=
  (C2_wheel_zoom 100 [1, 2] (-5) ⟨1, 50, 50, 50, 30, 1, 1⟩).1 (by norm_num)

/-- C8: every `zoom` call — level transition or no-op — sets the
drawing-surface width to `baseWidth × newZoom` and `timePxRatio` to
`baseWidth × newZoom / duration`, and leaves `freqPxRatio`, the canvas
height and the base width unchanged. -/
theorem C8_zoom_resizes (duration : ℚ) (zoomLevels : List ℕ) (s : ZoomState)
    (direction : ℤ) :
    (zoom duration zoomLevels s direction).canvasWidth
      = s.wrapperWidth * ((zoom duration zoomLevels s direction).currentZoom : ℚ) ∧
    (zoom duration zoomLevels s direction).timePxR
      = s.wrapperWidth * ((zoom duration zoomLevels s direction).currentZoom : ℚ) / duration ∧
    (zoom duration zoomLevels s direction).freqPxR = s.freqPxR ∧
    (zoom duration zoomLevels s direction).canvasHeight = s.canvasHeight ∧
    (zoom duration zoomLevels s direction).wrapperWidth = s.wrapperWidth :=
  ⟨rfl, rfl, rfl, rfl, rfl⟩

/-- Iterated `zoom(+1)` calls. -/
def zoomInIter (duration : ℚ) (zoomLevels : List ℕ) : ℕ → ZoomState → ZoomState
  | 0, s => s
  | n + 1, s => zoom duration zoomLevels (zoomInIter duration zoomLevels n s) 1

/-- A `zoom(+1)` call at index `i < 4` of the level list moves to the
next-higher factor. -/
theorem zoom_step_in (duration : ℚ) (l : List ℕ) (s : ZoomState) (i : ℕ)
    (hfind : jsFindIndex l s.currentZoom = (i : ℤ)) (hi : (i : ℤ) < 4) :
    (zoom duration l s 1).currentZoom = l.getD (i + 1) 0 := by
  have hcast : ((i : ℤ) + 1).toNat = i + 1 := by omega
  simp [zoom, hfind, hi, hcast]

/-- A `zoom(+1)` call at index `4` or higher is a no-op on the zoom
factor. -/
theorem zoom_noop_in (duration : ℚ) (l : List ℕ) (s : ZoomState) (i : ℕ)
    (hfind : jsFindIndex l s.currentZoom = (i : ℤ)) (hi : ¬ (i : ℤ) < 4) :
    (zoom duration l s 1).currentZoom = s.currentZoom := by
  simp [zoom, hfind, hi]

/-- A `zoom(-1)` call at index `0` is a no-op on the zoom factor. -/
theorem zoom_noop_out (duration : ℚ) (l : List ℕ) (s : ZoomState)
    (hfind : jsFindIndex l s.currentZoom = 0) :
    (zoom duration l s (-1)).currentZoom = s.currentZoom := by
  simp [zoom, hfind]

/-- C7 (counterexample): with the six-level list `[1, 2, 4, 8, 16, 32]`
and starting at the lowest level, the state after four `zoom(+1)` calls
and the state after five have the same zoom factor `16` (level index
`4`): the fifth call is already a no-op, so the first five calls do not
each move to the next-higher factor as the claim states. -/
theorem C7_counterexample :
    (zoomInIter 100 [1, 2, 4, 8, 16, 32] 4 ⟨1, 50, 50, 50, 30, 1, 1⟩).currentZoom = 16 ∧
    (zoomInIter 100 [1, 2, 4, 8, 16, 32] 5 ⟨1, 50, 50, 50, 30, 1, 1⟩).currentZoom = 16 := by
  constructor <;> rfl

/-- C7 (amended): for a resolution with at least six zoom levels,
starting at the lowest level, each of the first four `zoom(+1)` calls
moves to the next-higher factor, reaching level index `4`; the fifth
and sixth `zoom(+1)` calls leave `currentZoom` unchanged at index `4`,
and a `zoom(-1)` call at level index `0` leaves `currentZoom`
unchanged; such out-of-range requests are no-ops that raise no
error. -/
theorem C7_zoom_cap (duration : ℚ) (l : List ℕ) (s : ZoomState)
    (hlen : 6 ≤ l.length)
    (hidx : ∀ i : ℕ, i < l.length → jsFindIndex l (l.getD i 0) = (i : ℤ))
    (hstart : s.currentZoom = l.getD 0 0) :
    (∀ n : ℕ, n < 4 →
      (zoomInIter duration l n s).currentZoom = l.getD n 0 ∧
      (zoom duration l (zoomInIter duration l n s) 1).currentZoom = l.getD (n + 1) 0) ∧
    (zoomInIter duration l 4 s).currentZoom = l.getD 4 0 ∧
    (zoom duration l (zoomInIter duration l 4 s) 1).currentZoom = l.getD 4 0 ∧
    (zoom duration l (zoomInIter duration l 5 s) 1).currentZoom = l.getD 4 0 ∧
    (zoom duration l s (-1)).currentZoom = l.getD 0 0 := by
  have hcur : ∀ n : ℕ, n ≤ 4 → (zoomInIter duration l n s).currentZoom = l.getD n 0 := by
    intro n
    induction n with
    | zero => intro _; simpa [zoomInIter] using hstart
    | succ k ih =>
      intro hk
      have hck : (zoomInIter duration l k s).currentZoom = l.getD k 0 := ih (by omega)
      show (zoom duration l (zoomInIter duration l k s) 1).currentZoom = l.getD (k + 1) 0
      apply zoom_step_in duration l _ k
      · rw [hck]; exact hidx k (by omega)
      · exact_mod_cast (by omega : (k : ℤ) < 4)
  have h4 : (zoomInIter duration l 4 s).currentZoom = l.getD 4 0 := hcur 4 (by omega)
  have hfifth : (zoom duration l (zoomInIter duration l 4 s) 1).currentZoom = l.getD 4 0 := by
    rw [zoom_noop_in duration l _ 4 (by rw [h4]; exact hidx 4 (by omega)) (by omega)]
    exact h4
  have h5 : (zoomInIter duration l 5 s).currentZoom = l.getD 4 0 := hfifth
  have hsixth : (zoom duration l (zoomInIter duration l 5 s) 1).currentZoom = l.getD 4 0 := by
    rw [zoom_noop_in duration l _ 4 (by rw [h5]; exact hidx 4 (by omega)) (by omega)]
    exact h5
  refine ⟨?_, h4, hfifth, hsixth, ?_⟩
  · intro n hn
    refine ⟨hcur n (by omega), ?_⟩
    apply zoom_step_in duration l _ n
    · rw [hcur n (by omega)]; exact hidx n (by omega)
    · exact_mod_cast (by omega : (n : ℤ) < 4)
  · rw [zoom_noop_out duration l s (by rw [hstart]; exact hidx 0 (by omega))]
    exact hstart

/-- Witness for C7 with the concrete level list `[1, 2, 4, 8, 16, 32]`:
the fifth `zoom(+1)` call from the lowest level is a no-op at factor
`16`. -/
theorem C7_witness :
    (zoom 100 [1, 2, 4, 8, 16, 32]
        (zoomInIter 100 [1, 2, 4, 8, 16, 32] 4 ⟨1, 50, 50, 50, 30, 1, 1⟩) 1).currentZoom
      = [1, 2, 4, 8, 16, 32].getD 4 0 :=
  (C7_zoom_cap 100 [1, 2, 4, 8, 16, 32] ⟨1, 50, 50, 50, 30, 1, 1⟩
    (by decide) (by decide) rfl).2.2.1

/-- One spectrogram tile, reduced to the time slice its image covers
(the source's `{start, end, image}`; the image element and its URL are
not modelled). -/
structure SpectroTile where
  start : ℚ
  end_ : ℚ
deriving DecidableEq

/-- One zoom level of the result of `buildSpectrogramsDetails`, reduced
to the fields the claims concern: the zoom factor and the tile list
(the `nfft`/`winsize`/`overlap`/URL fields are carried over from the
configuration unchanged). -/
structure SpectroDetails where
  zoom : ℕ
  images : List SpectroTile
deriving DecidableEq

/-- `Math.log2(conf.urls.length + 1)` of the source, as a natural
number: exact (and equal to the JS value) on the supported URL counts
`2^k − 1`; on other counts the JS code would throw building
`[...Array(nbZooms)]` from a fractional length, which no claim
concerns. -/
def nbZooms (nUrls : ℕ) : ℕ := Nat.log2 (nUrls + 1)

/-- The zoom factors `2^0, 2^1, …, 2^(nbZooms − 1)` of
`buildSpectrogramsDetails`. -/
def zoomFactors (nUrls : ℕ) : List ℕ :=
  (List.range (nbZooms nUrls)).map fun i => 2 ^ i

/-- The tile list of one zoom level: `zoom` tiles of width
`step = duration / zoom`, tile `i` covering `[i·step, (i+1)·step)`. -/
def levelImages (duration : ℚ) (zoom : ℕ) : List SpectroTile :=
  (List.range zoom).map fun i : ℕ =>
    { start := (i : ℚ) * (duration / (zoom : ℚ))
      end_ := ((i : ℚ) + 1) * (duration / (zoom : ℚ)) }

/-- Embedding of `buildSpectrogramsDetails` for one per-resolution
configuration carrying `nUrls` tile URLs (the source `flatMap`s this
over all configurations). -/
def buildSpectrogramsDetails (duration : ℚ) (nUrls : ℕ) : List SpectroDetails :=
  (zoomFactors nUrls).map fun z => { zoom := z, images := levelImages duration z }

/-- For `2^k − 1` URLs the pyramid has exactly `k` levels. -/
theorem nbZooms_pow (k : ℕ) : nbZooms (2 ^ k - 1) = k := by
  have h1 : 1 ≤ 2 ^ k := Nat.one_le_pow k 2 (by norm_num)
  have h : 2 ^ k - 1 + 1 = 2 ^ k := Nat.sub_add_cancel h1
  rw [nbZooms, h, Nat.log2_eq_log_two, Nat.log_pow (by norm_num : 1 < 2)]

/-- C6: for a configuration with `2^k − 1` URLs (`k ≥ 1`) and duration
`d > 0`, `buildSpectrogramsDetails` produces exactly `k` zoom levels
with factors `1, 2, 4, …, 2^(k−1)`, and the level with factor `z` has
exactly `z` tiles where tile `i` covers `[i·d/z, (i+1)·d/z)`: the
tiles are contiguous, non-overlapping, nonempty, and together span
`[0, d)`. -/
theorem C6_tile_pyramid (k : ℕ) (d : ℚ) (hk : 1 ≤ k) (hd : 0 < d) :
    (buildSpectrogramsDetails d (2 ^ k - 1)).length = k ∧
    (∀ i : ℕ, i < k → (buildSpectrogramsDetails d (2 ^ k - 1))[i]?
        = some { zoom := 2 ^ i, images := levelImages d (2 ^ i) }) ∧
    (∀ z : ℕ, 0 < z →
      (levelImages d z).length = z ∧
      (∀ i : ℕ, i < z → (levelImages d z)[i]?
          = some { start := (i : ℚ) * (d / (z : ℚ))
                   end_ := ((i : ℚ) + 1) * (d / (z : ℚ)) }) ∧
      (∀ i : ℕ, i + 1 < z → ∃ t t' : SpectroTile,
        (levelImages d z)[i]? = some t ∧ (levelImages d z)[i + 1]? = some t' ∧
        t.end_ = t'.start) ∧
      (∀ i j : ℕ, ∀ t t' : SpectroTile, i < j →
        (levelImages d z)[i]? = some t → (levelImages d z)[j]? = some t' →
        t.end_ ≤ t'.start) ∧
      (∀ t ∈ levelImages d z, t.start < t.end_) ∧
      ((levelImages d z)[0]?.map SpectroTile.start = some 0) ∧
      ((levelImages d z)[z - 1]?.map SpectroTile.end_ = some d)) := by
  have hlevlen : ∀ z : ℕ, (levelImages d z).length = z := by
    intro z
    rw [levelImages, List.length_map, List.length_range]
  have htile : ∀ z i : ℕ, i < z → (levelImages d z)[i]?
      = some { start := (i : ℚ) * (d / (z : ℚ))
               end_ := ((i : ℚ) + 1) * (d / (z : ℚ)) } := by
    intro z i hi
    rw [levelImages, List.getElem?_map, List.getElem?_range hi]
    rfl
  have hlen : (buildSpectrogramsDetails d (2 ^ k - 1)).length = k := by
    rw [buildSpectrogramsDetails, List.length_map, zoomFactors, List.length_map,
      List.length_range, nbZooms_pow]
  have helem : ∀ i : ℕ, i < k → (buildSpectrogramsDetails d (2 ^ k - 1))[i]?
      = some { zoom := 2 ^ i, images := levelImages d (2 ^ i) } := by
    intro i hi
    have hi' : i < nbZooms (2 ^ k - 1) := by rw [nbZooms_pow]; exact hi
    rw [buildSpectrogramsDetails, zoomFactors, List.map_map, List.getElem?_map,
      List.getElem?_range hi']
    rfl
  refine ⟨hlen, helem, ?_⟩
  intro z hz
  have hzq : (0 : ℚ) < (z : ℚ) := by exact_mod_cast hz
  have hzq0 : (z : ℚ) ≠ 0 := ne_of_gt hzq
  have hstep : (0 : ℚ) < d / (z : ℚ) := div_pos hd hzq
  refine ⟨hlevlen z, fun i hi => htile z i hi, ?_, ?_, ?_, ?_, ?_⟩
  · intro i hi
    refine ⟨_, _, htile z i (by omega), htile z (i + 1) (by omega), ?_⟩
    push_cast
    ring
  · intro i j t t' hij hti htj
    have hiz : i < z := by
      have h := (List.getElem?_eq_some.mp hti).1
      rwa [hlevlen z] at h
    have hjz : j < z := by
      have h := (List.getElem?_eq_some.mp htj).1
      rwa [hlevlen z] at h
    rw [htile z i hiz] at hti
    rw [htile z j hjz] at htj
    have hti' := Option.some.inj hti
    have htj' := Option.some.inj htj
    rw [← hti', ← htj']
    show ((i : ℚ) + 1) * (d / (z : ℚ)) ≤ (j : ℚ) * (d / (z : ℚ))
    have hc : ((i : ℚ) + 1) ≤ (j : ℚ) := by exact_mod_cast hij
    exact mul_le_mul_of_nonneg_right hc hstep.le
  · intro t ht
    rw [levelImages, List.mem_map] at ht
    obtain ⟨i, _, rfl⟩ := ht
    show (i : ℚ) * (d / (z : ℚ)) < ((i : ℚ) + 1) * (d / (z : ℚ))
    exact mul_lt_mul_of_pos_right (lt_add_one _) hstep
  · rw [htile z 0 hz]
    have h0 : ((0 : ℕ) : ℚ) * (d / (z : ℚ)) = 0 := by
      rw [Nat.cast_zero, zero_mul]
    simp only [Option.map_some']
    exact congrArg some h0
  · rw [htile z (z - 1) (by omega)]
    have h1 : (1 : ℕ) ≤ z := hz
    have hc : ((z - 1 : ℕ) : ℚ) + 1 = (z : ℚ) := by
      push_cast [h1]
      ring
    have hlast : (((z - 1 : ℕ) : ℚ) + 1) * (d / (z : ℚ)) = d := by
      rw [hc, mul_comm, div_mul_cancel₀ d hzq0]
    simp only [Option.map_some']
    exact congrArg some hlast

/-- Witness for C6 at `k = 2` (three URLs) and duration `10`: the
pyramid has exactly two zoom levels. -/
theorem C6_witness : (buildSpectrogramsDetails 10 (2 ^ 2 - 1)).length = 2 :=
  (C6_tile_pyramid 2 10 (by norm_num) (by norm_num)).1

/-- Embedding of the tick-step selection at the top of
`renderTimeAxis`: the `(step, bigStep)` pair (in seconds) as a function
of the visible duration. -/
def timeAxisSteps (dScreen : ℚ) : ℕ × ℕ :=
  if dScreen ≤ 60 then (1, 5)
  else if 60 < dScreen ∧ dScreen ≤ 120 then (2, 5)
  else if 120 < dScreen ∧ dScreen ≤ 240 then (4, 5)
  else (10, 6)

/-- The visible duration `renderTimeAxis` computes:
`wrapperWidth / timePxRatio`. -/
def durationOnScreen (wrapperWidth timePxR : ℚ) : ℚ := wrapperWidth / timePxR

/-- C9: the time-axis tick steps are a function of the visible duration
`wrapperWidth / timePxRatio` with thresholds `≤60s`, `≤120s`, `≤240s`
and above, selecting `(1,5)`, `(2,5)`, `(4,5)`, `(10,6)`; in particular
visible durations of `45`, `90`, `200` and `300` seconds select
`(1,5)`, `(2,5)`, `(4,5)` and `(10,6)`. -/
theorem C9_time_axis_steps :
    (∀ x : ℚ, x ≤ 60 → timeAxisSteps x = (1, 5)) ∧
    (∀ x : ℚ, 60 < x → x ≤ 120 → timeAxisSteps x = (2, 5)) ∧
    (∀ x : ℚ, 120 < x → x ≤ 240 → timeAxisSteps x = (4, 5)) ∧
    (∀ x : ℚ, 240 < x → timeAxisSteps x = (10, 6)) ∧
    timeAxisSteps (durationOnScreen 45 1) = (1, 5) ∧
    timeAxisSteps (durationOnScreen 90 1) = (2, 5) ∧
    timeAxisSteps (durationOnScreen 200 1) = (4, 5) ∧
    timeAxisSteps (durationOnScreen 300 1) = (10, 6) := by
  refine ⟨fun x h => ?_, fun x h1 h2 => ?_, fun x h1 h2 => ?_, fun x h => ?_,
    ?_, ?_, ?_, ?_⟩
  · simp [timeAxisSteps, h]
  · have h0 : ¬ x ≤ 60 := not_le.mpr h1
    simp [timeAxisSteps, h0, h1, h2]
  · have h0 : ¬ x ≤ 60 := not_le.mpr (by linarith)
    have h60 : (60 : ℚ) < x := by linarith
    have h120 : ¬ x ≤ 120 := not_le.mpr h1
    simp [timeAxisSteps, h0, h60, h120, h1, h2]
  · have h0 : ¬ x ≤ 60 := not_le.mpr (by linarith)
    have h120 : ¬ x ≤ 120 := not_le.mpr (by linarith)
    have h240 : ¬ x ≤ 240 := not_le.mpr h
    simp [timeAxisSteps, h0, h120, h240]
  · norm_num [timeAxisSteps, durationOnScreen]
  · norm_num [timeAxisSteps, durationOnScreen]
  · norm_num [timeAxisSteps, durationOnScreen]
  · norm_num [timeAxisSteps, durationOnScreen]

/-- Witness for C9: a visible duration of `45` seconds selects minor
step `1` and major step `5`. -/
theorem C9_witness : timeAxisSteps 45 = (1, 5) :=
  C9_time_axis_steps.1 45 (by norm_num)
